import Mathlib

/-!
Verification of the Falcon-Agent coordination core: the file-lock manager
(`src/utils/file_utils.py`), the task scheduler (`src/utils/agent_manager.py`)
and the goal-graph store (`src/agents/tasker_agent.py`), shallowly embedded
in Lean.  Python dicts are modelled as association lists, `datetime`
arithmetic as natural-number seconds, and raised exceptions as `Except`
errors.  Definitions come first, lemmas and the claim theorems follow.
-/

set_option autoImplicit false

namespace FalconAgent

/-! ### Association lists: the model of Python `dict`

All persistent maps in the source (the lock-record store, the
`tasks_assigned` and `tasks_completed` state dicts, the goal-graph
directory) are JSON objects / Python dicts.  We model them as lists of
key-value pairs with first-match lookup; `aset` overwrites in place
(`d[k] = v`) and `aerase` removes the key (`del d[k]`). -/

variable {κ : Type} {β : Type} [DecidableEq κ]

/-- First-match lookup, the model of `d.get(k)`. -/
def alookup : List (κ × β) → κ → Option β
  | [], _ => none
  | p :: ps, k => if p.1 = k then some p.2 else alookup ps k

/-- In-place overwrite-or-append, the model of `d[k] = v`. -/
def aset : List (κ × β) → κ → β → List (κ × β)
  | [], k, v => [(k, v)]
  | p :: ps, k, v => if p.1 = k then (k, v) :: ps else p :: aset ps k v

/-- Removal of a key, the model of `del d[k]`. -/
def aerase : List (κ × β) → κ → List (κ × β)
  | [], _ => []
  | p :: ps, k => if p.1 = k then ps else p :: aerase ps k

/-! ### Lock manager (`src/utils/file_utils.py`, class `FileLock`)

The per-resource record `{owner_id, time, timeout, exclusive}` stored in the
lock file's JSON object is `LockRecord`; the JSON object keyed by resource
path is `LockStore`.  `datetime.now()` / ISO timestamps become a `now : Nat`
parameter measured in seconds, so `lock_time + timedelta(seconds=timeout)`
is `time + timeout` and "not expired" (line 88) is `now < time + timeout`.
A raised `FileLockException` becomes the `Except.error` branch. -/

structure LockRecord where
  owner : String
  time : Nat
  timeout : Nat
  exclusive : Bool
  deriving DecidableEq

/-- The JSON object held in a lock file: resource path ↦ record. -/
abbrev LockStore := List (String × LockRecord)

/-- The business-level contention error of `FileLock.acquire` (line 96),
carrying the data interpolated into its message: the path, the holding
owner and the expiry instant. -/
inductive FileLockException where
  | contention (path holder : String) (expiresAt : Nat)
  deriving DecidableEq

/-- `FileLock.acquire` (file_utils.py lines 81-118), given the parsed store.
If a record for the path exists, is not expired, belongs to another owner,
and the request or the record is exclusive, a `FileLockException` is
raised; in every other case the record is overwritten with the caller's
fresh record and the call succeeds. -/
def acquire (store : LockStore) (path owner : String) (exclusive : Bool)
    (timeout now : Nat) : Except FileLockException LockStore :=
  let fresh : LockRecord := ⟨owner, now, timeout, exclusive⟩
  match alookup store path with
  | some r =>
    if now < r.time + r.timeout then
      if r.owner ≠ owner then
        if exclusive || r.exclusive then
          .error (.contention path r.owner (r.time + r.timeout))
        else
          .ok (aset store path fresh)
      else
        .ok (aset store path fresh)
    else
      .ok (aset store path fresh)
  | none => .ok (aset store path fresh)

/-- `FileLock.release` (file_utils.py lines 126-172), given the parsed
store and the caller's `self.locked` flag.  Returns the Python boolean
result together with the store left behind: an unlocked caller fails, a
foreign record fails, the caller's own record is deleted, an absent record
is a no-op success. -/
def release (store : LockStore) (path owner : String) (locked : Bool) :
    Bool × LockStore :=
  if !locked then (false, store)
  else
    match alookup store path with
    | some r =>
      if r.owner = owner then (true, aerase store path)
      else (false, store)
    | none => (true, store)

/-- A record is live ("has not expired", line 88) at instant `now`. -/
def LockRecord.live (r : LockRecord) (now : Nat) : Prop :=
  now < r.time + r.timeout

instance (r : LockRecord) (now : Nat) : Decidable (r.live now) :=
  inferInstanceAs (Decidable (now < r.time + r.timeout))

/-! ### Tasks and the scheduler (`src/utils/agent_manager.py`, `assign_tasks`)

A task is a JSON object whose attributes may be absent, so every field is
an `Option`; `t.get("status", "Not Started")` is `t.status.getD "Not
Started"`, and so on.  The scheduler state carries the pieces of
`AgentManager.state` that `assign_tasks` reads and writes:
`goal_graph["tasks"]`, `state["tasks_assigned"]` (task id ↦ agent id) and
`state["tasks_completed"]` (task id ↦ status string).  The keys of
`tasks_assigned` are `task.get("id")`, hence `Option String`. -/

structure Task where
  id : Option String
  name : Option String
  priority : Option String
  description : Option String
  dependencies : Option (List String)
  status : Option String
  owner : Option String
  deriving DecidableEq

/-- `priority_map.get(p, 0)` with `priority_map = {"High": 3, "Medium": 2,
"Low": 1}` (agent_manager.py line 403). -/
def priorityRank (p : String) : Nat :=
  if p = "High" then 3 else if p = "Medium" then 2 else if p = "Low" then 1 else 0

/-- The ascending comparison on the sort key
`(priority_map.get(t.get("priority", "Medium"), 0), -len(t.get("dependencies", [])))`
of line 404: lexicographic on rank, then on negated dependency count (so a
larger dependency count compares smaller). -/
def taskLE (t u : Task) : Bool :=
  let rt := priorityRank (t.priority.getD "Medium")
  let ru := priorityRank (u.priority.getD "Medium")
  let dt := (t.dependencies.getD []).length
  let du := (u.dependencies.getD []).length
  if rt < ru then true
  else if rt = ru then decide (du ≤ dt)
  else false

/-- Insert into a sorted list, after every element that compares `le` to
the new one, so equal keys keep their original relative order. -/
def insertSorted {α : Type} (le : α → α → Bool) (a : α) : List α → List α
  | [] => [a]
  | b :: bs => if le a b then a :: b :: bs else b :: insertSorted le a bs

/-- Stable insertion sort.  `list.sort(key=...)` in Python is a stable
sort by an ascending total preorder on keys; a stable sort's output is
uniquely determined by that preorder, so stable insertion sort computes
exactly the list `available_tasks.sort(key=...)` produces at line 404. -/
def sortTasks {α : Type} (le : α → α → Bool) : List α → List α
  | [] => []
  | a :: as => insertSorted le a (sortTasks le as)

/-- Pair each element with its position: `enumerate(xs)` starting at `i`. -/
def withIdx {α : Type} (i : Nat) : List α → List (Nat × α)
  | [] => []
  | a :: as => (i, a) :: withIdx (i + 1) as

/-- The availability filter of `assign_tasks` (lines 380-400): a task is
skipped when its id is a key of `tasks_assigned` or its status is
"Completed"; otherwise it qualifies when every dependency id maps to
"Completed" in `tasks_completed` (the `not dependencies or
all_deps_completed` test, vacuously true on an empty list). -/
def isAvailable (assigned : List (Option String × String))
    (completed : List (String × String)) (t : Task) : Bool :=
  if (alookup assigned t.id).isSome ||
      decide (t.status.getD "Not Started" = "Completed") then false
  else (t.dependencies.getD []).all
    (fun d => decide (alookup completed d = some "Completed"))

/-- The slice of `AgentManager.state` (and the goal graph) that
`assign_tasks` touches. -/
structure SchedulerState where
  tasks : List Task
  tasksAssigned : List (Option String × String)
  tasksCompleted : List (String × String)
  deriving DecidableEq

/-- The `available_tasks` list built by the loop at lines 380-400, in
graph order, before sorting. -/
def availableTasks (s : SchedulerState) : List Task :=
  s.tasks.filter (isAvailable s.tasksAssigned s.tasksCompleted)

/-- The list of task ids handed to worker `j` by the round-robin loop at
lines 410-419: the ids of the sorted ready tasks at positions `i` with
`i % n = j`, in position order. -/
def workerQueue (avail : List Task) (n j : Nat) : List (Option String) :=
  ((withIdx 0 avail).filter (fun p => decide (p.1 % n = j))).map (fun p => p.2.id)

/-- The `tasks_assigned` dict after the round-robin loop of
`assign_tasks` (line 417): for the i-th sorted ready task, the key
`task.get("id")` gains the value `self.coder_agents[i % n].id`. -/
def newTasksAssigned (s : SchedulerState) (agents : List String) :
    List (Option String × String) :=
  (withIdx 0 (sortTasks taskLE (availableTasks s))).foldl
    (fun m p => aset m p.2.id (agents.getD (p.1 % agents.length) ""))
    s.tasksAssigned

/-- The body of `assign_tasks` past its guards (agent_manager.py lines
376-425).  `agents` is `self.coder_agents` by id.  The returned
assignment is indexed like `self.coder_agents`, and each ready task
object in the graph is mutated to status "In Progress" with its owner set
(lines 417-419; when several distinct task objects share an id the source
gives each object its own round-robin owner while the dict keeps the
last, and this model records the dict's value for all of them — no claim
reads `owner`). -/
def assignTasksGo (s : SchedulerState) (agents : List String) :
    List (List (Option String)) × SchedulerState :=
  let avail := sortTasks taskLE (availableTasks s)
  let n := agents.length
  ((List.range n).map (workerQueue avail n),
    { tasks := s.tasks.map (fun t =>
        if isAvailable s.tasksAssigned s.tasksCompleted t then
          { t with status := some "In Progress",
                   owner := alookup (newTasksAssigned s agents) t.id }
        else t),
      tasksAssigned := newTasksAssigned s agents,
      tasksCompleted := s.tasksCompleted })

/-- `assign_tasks` (agent_manager.py lines 363-425): an empty Coder pool
raises `ValueError` at line 367 (`none` here), otherwise the body runs.
The graph-existence and approval guards (lines 370-373) also raise before
touching any state and are not carried in this state slice. -/
def assignTasks (s : SchedulerState) (agents : List String) :
    Option (List (List (Option String)) × SchedulerState) :=
  match agents with
  | [] => none
  | _ :: _ => some (assignTasksGo s agents)

/-- The ready-set predicate as the spec words it ("status is neither
InProgress nor Completed, and every dependency id is in completedIds"),
written here only to compare against the source's `isAvailable`. -/
def specReadyTask (completedIds : List String) (t : Task) : Bool :=
  decide (t.status.getD "Not Started" ≠ "In Progress") &&
  decide (t.status.getD "Not Started" ≠ "Completed") &&
  (t.dependencies.getD []).all (fun d => decide (d ∈ completedIds))

/-! ### Task micro-state bookkeeping (`agent_manager.py`)

`implement_task` records `tasks_completed[task_id] = "Needs Review"` at
line 476 once the worker returns; `verify_fixes` guards at lines 610-612
on `tasks_completed.get(task_id) != "Needs Review"` (raising `ValueError`)
and then records "Completed" or "Needs Fixes" depending on the
verification outcome (lines 637-644).  The embedding keeps the
`tasks_completed` map, which is the only state those preconditions read. -/

/-- The `tasks_completed` bookkeeping of `implement_task` (line 476): the
first implementation pass records "Needs Review". -/
def implementTaskStatus (completed : List (String × String)) (taskId : String) :
    List (String × String) :=
  aset completed taskId "Needs Review"

/-- The `tasks_completed` bookkeeping of `verify_fixes` (lines 610-644):
raise `ValueError` unless the recorded status is "Needs Review", else
record the verification outcome. -/
def verifyFixes (completed : List (String × String)) (taskId : String)
    (allFixed : Bool) : Except String (List (String × String)) :=
  if alookup completed taskId ≠ some "Needs Review" then
    .error ("Task " ++ taskId ++ " is not ready for verification.")
  else
    .ok (aset completed taskId (if allFixed then "Completed" else "Needs Fixes"))

/-! ### Goal-graph store (`src/agents/tasker_agent.py`)

A goal-graph file holds either a parseable graph or corrupt content; the
directory is a map file name ↦ content, a missing name meaning a missing
file.  JSON serialisation is assumed faithful on graphs (`json.dump`
followed by `json.load` reproduces the object), so `_save_goal_graph`
writing `json.dump(goal_graph)` stores the graph value itself. -/

structure GoalGraph where
  tasks : List Task
  deriving DecidableEq

/-- Content of a goal-graph file: a parseable graph, or bytes on which
`json.load` raises `JSONDecodeError`. -/
inductive FileContent where
  | graph (g : GoalGraph)
  | corrupt
  deriving DecidableEq

/-- The goal-graph directory: file name ↦ content. -/
abbrev FileStore := List (String × FileContent)

/-- Per-task attribute defaulting of `_validate_goal_graph`
(tasker_agent.py lines 343-368) at list position `i`: a missing id
defaults to `str(i+1)`, the name default uses the id resolved just
before, and the remaining attributes get their literal defaults.  Present
attributes are untouched. -/
def normalizeTask (i : Nat) (t : Task) : Task :=
  let id := t.id.getD (toString (i + 1))
  { id := some id,
    name := some (t.name.getD ("Task " ++ id)),
    priority := some (t.priority.getD "Medium"),
    description := some (t.description.getD "No description provided."),
    dependencies := some (t.dependencies.getD []),
    status := some (t.status.getD "Not Started"),
    owner := some (t.owner.getD "Unassigned") }

/-- `_validate_goal_graph` on a well-typed graph: default every task's
missing attributes (the non-dict-graph and missing-"tasks"-key repairs at
lines 334-340 concern untyped input and have no image in this typed
model). -/
def validateGoalGraph (g : GoalGraph) : GoalGraph :=
  ⟨(withIdx 0 g.tasks).map (fun p => normalizeTask p.1 p.2)⟩

/-- `_save_goal_graph` (tasker_agent.py lines 372-401): write the graph to
the timestamped file and to "latest.json", each write under
`file_lock(path, self.id)` (exclusive, acquire then release); any
exception — including lock contention — is caught at line 400 and only
logged, so a failed first acquire abandons both writes and a failed
second abandons the second.  Returns the lock store and directory left
behind. -/
def saveGoalGraph (ls : LockStore) (fs : FileStore) (owner : String)
    (timeout now : Nat) (tsName : String) (g : GoalGraph) :
    LockStore × FileStore :=
  match acquire ls tsName owner true timeout now with
  | .error _ => (ls, fs)
  | .ok ls1 =>
    let fs1 := aset fs tsName (.graph g)
    let ls2 := (release ls1 tsName owner true).2
    match acquire ls2 "latest.json" owner true timeout now with
    | .error _ => (ls2, fs1)
    | .ok ls3 =>
      let fs2 := aset fs1 "latest.json" (.graph g)
      ((release ls3 "latest.json" owner true).2, fs2)

/-- `load_goal_graph` (tasker_agent.py lines 403-426): a missing file
returns the empty graph before any locking (line 415); otherwise the file
is read under `file_lock(path, self.id, exclusive=False)` — whose
`FileLockException` is NOT among the caught `(json.JSONDecodeError,
IOError)` and therefore propagates — and corrupt content is caught and
becomes the empty graph.  Returns the graph together with the lock store
left behind. -/
def loadGoalGraph (ls : LockStore) (fs : FileStore) (owner : String)
    (timeout now : Nat) (filename : String) :
    Except FileLockException (GoalGraph × LockStore) :=
  match alookup fs filename with
  | none => .ok (⟨[]⟩, ls)
  | some content =>
    match acquire ls filename owner false timeout now with
    | .error e => .error e
    | .ok ls1 =>
      let ls2 := (release ls1 filename owner true).2
      match content with
      | .graph g => .ok (g, ls2)
      | .corrupt => .ok (⟨[]⟩, ls2)

end FalconAgent

namespace FalconAgent

/-! ### Lemmas about association lists -/

variable {κ : Type} {β : Type} [DecidableEq κ]

@[simp] theorem alookup_nil (k : κ) : alookup ([] : List (κ × β)) k = none := rfl

@[simp] theorem alookup_cons (p : κ × β) (ps : List (κ × β)) (k : κ) :
    alookup (p :: ps) k = if p.1 = k then some p.2 else alookup ps k := rfl

@[simp] theorem aset_nil (k : κ) (v : β) : aset ([] : List (κ × β)) k v = [(k, v)] := rfl

theorem alookup_aset_self (m : List (κ × β)) (k : κ) (v : β) :
    alookup (aset m k v) k = some v := by
  induction m with
  | nil => simp [aset]
  | cons p ps ih =>
    by_cases h : p.1 = k
    · simp [aset, h]
    · simp [aset, h, ih]

theorem alookup_aset_of_ne (m : List (κ × β)) (k k' : κ) (v : β) (h : k' ≠ k) :
    alookup (aset m k v) k' = alookup m k' := by
  induction m with
  | nil => simp [aset, alookup, Ne.symm h]
  | cons p ps ih =>
    obtain ⟨a, b⟩ := p
    by_cases hp : a = k
    · subst hp
      simp [aset, alookup, Ne.symm h]
    · simp [aset, alookup, hp, ih]

theorem isSome_alookup_aset (m : List (κ × β)) (k k' : κ) (v : β)
    (h : (alookup m k').isSome) : (alookup (aset m k v) k').isSome := by
  by_cases hk : k' = k
  · subst hk; simp [alookup_aset_self]
  · rwa [alookup_aset_of_ne m k k' v hk]

/-- The key just written is present. -/
theorem isSome_alookup_aset_self (m : List (κ × β)) (k : κ) (v : β) :
    (alookup (aset m k v) k).isSome := by
  simp [alookup_aset_self]

/-- Folding a batch of writes preserves every key already present. -/
theorem isSome_alookup_foldl_aset {γ : Type} (l : List γ) (key : γ → κ)
    (val : γ → β) (m0 : List (κ × β)) (k : κ) (h : (alookup m0 k).isSome) :
    (alookup (l.foldl (fun m p => aset m (key p) (val p)) m0) k).isSome := by
  induction l generalizing m0 with
  | nil => exact h
  | cons q qs ih => exact ih _ (isSome_alookup_aset _ _ _ _ h)

/-- Folding a batch of writes makes every written key present. -/
theorem isSome_alookup_foldl_aset_of_mem {γ : Type} (l : List γ) (key : γ → κ)
    (val : γ → β) (m0 : List (κ × β)) (p0 : γ) (hp : p0 ∈ l) :
    (alookup (l.foldl (fun m p => aset m (key p) (val p)) m0) (key p0)).isSome := by
  induction l generalizing m0 with
  | nil => cases hp
  | cons q qs ih =>
    rcases List.mem_cons.mp hp with h | h
    · subst h
      exact isSome_alookup_foldl_aset qs key val _ _ (isSome_alookup_aset_self _ _ _)
    · exact ih _ h

/-! ### Lemmas about the lock manager -/

/-- Characterization of the raising branch of `acquire`, shared by the
contention theorems. -/
theorem acquire_error_characterization (store : LockStore) (path owner : String)
    (exclusive : Bool) (timeout now : Nat) :
    (∃ e, acquire store path owner exclusive timeout now = .error e) ↔
      ∃ r, alookup store path = some r ∧ r.live now ∧ r.owner ≠ owner ∧
        (exclusive = true ∨ r.exclusive = true) := by
  unfold acquire
  cases h : alookup store path with
  | none =>
    simp [h]
  | some r =>
    simp only [h, LockRecord.live]
    by_cases hl : now < r.time + r.timeout
    · by_cases ho : r.owner ≠ owner
      · by_cases hx : (exclusive || r.exclusive) = true
        · simp only [if_pos hl, if_pos ho, hx, if_true]
          constructor
          · intro _
            exact ⟨r, rfl, hl, ho, by simpa [Bool.or_eq_true] using hx⟩
          · intro _
            exact ⟨_, rfl⟩
        · simp only [if_pos hl, if_pos ho, hx, if_false]
          constructor
          · rintro ⟨e, he⟩; cases he
          · rintro ⟨r', hr', -, -, hx'⟩
            cases hr'
            exact absurd (by simpa [Bool.or_eq_true] using hx') (by simpa using hx)
      · simp only [if_pos hl, if_neg ho]
        constructor
        · rintro ⟨e, he⟩; cases he
        · rintro ⟨r', hr', -, ho', -⟩
          cases hr'
          exact (ho ho').elim
    · simp only [if_neg hl]
      constructor
      · rintro ⟨e, he⟩; cases he
      · rintro ⟨r', hr', hl', -, -⟩
        cases hr'
        exact (hl hl').elim

/-- Whenever `acquire` does not raise, it overwrites the path's record
with the caller's fresh record. -/
theorem acquire_ok_or_error (store : LockStore) (path owner : String)
    (exclusive : Bool) (timeout now : Nat) :
    acquire store path owner exclusive timeout now =
        .ok (aset store path ⟨owner, now, timeout, exclusive⟩) ∨
      ∃ e, acquire store path owner exclusive timeout now = .error e := by
  unfold acquire
  cases h : alookup store path with
  | none => exact .inl rfl
  | some r =>
    by_cases hl : now < r.time + r.timeout
    · by_cases ho : r.owner ≠ owner
      · by_cases hx : (exclusive || r.exclusive) = true
        · exact .inr ⟨.contention path r.owner (r.time + r.timeout), by simp [hl, ho, hx]⟩
        · exact .inl (by simp [hl, ho, hx])
      · exact .inl (by simp [hl, ho])
    · exact .inl (by simp [hl])

end FalconAgent

namespace FalconAgent

/-- C1: `acquire` raises `FileLockException` if and only if a live record
for the resource exists, owned by a different owner, and the request is
exclusive or the existing record is exclusive; in particular shared over
live foreign shared succeeds, and with no live foreign record every
acquire succeeds. -/
theorem acquire_error_iff (store : LockStore) (path owner : String)
    (exclusive : Bool) (timeout now : Nat) :
    (∃ e, acquire store path owner exclusive timeout now = .error e) ↔
      ∃ r, alookup store path = some r ∧ r.live now ∧ r.owner ≠ owner ∧
        (exclusive = true ∨ r.exclusive = true) :=
  acquire_error_characterization store path owner exclusive timeout now

/-- C5: on an expired record (now is not before acquiredAt + timeout), any
owner's `acquire` succeeds without raising, and the stored record afterwards
names the new owner, the new timestamp, timeout and mode. -/
theorem acquire_expired_succeeds (store : LockStore) (path : String)
    (r : LockRecord) (owner : String) (exclusive : Bool) (timeout now : Nat)
    (hr : alookup store path = some r) (hexp : r.time + r.timeout ≤ now) :
    acquire store path owner exclusive timeout now =
      .ok (aset store path ⟨owner, now, timeout, exclusive⟩) ∧
    alookup (aset store path ⟨owner, now, timeout, exclusive⟩) path =
      some ⟨owner, now, timeout, exclusive⟩ := by
  refine ⟨?_, alookup_aset_self _ _ _⟩
  unfold acquire
  rw [hr]
  simp [Nat.not_lt.mpr hexp]

/-- Witness for C5: the spec scenario — a lock acquired at t=0 with
timeout 30 by owner "a"; at t=31 owner "b" acquires successfully and the
record shows owner "b". -/
theorem acquire_expired_succeeds_witness :
    alookup [("f", (⟨"a", 0, 30, true⟩ : LockRecord))] "f" = some ⟨"a", 0, 30, true⟩ ∧
    (0 : Nat) + 30 ≤ 31 ∧
    (acquire [("f", (⟨"a", 0, 30, true⟩ : LockRecord))] "f" "b" true 30 31 =
        .ok (aset [("f", (⟨"a", 0, 30, true⟩ : LockRecord))] "f" (⟨"b", 31, 30, true⟩ : LockRecord)) ∧
      alookup (aset [("f", (⟨"a", 0, 30, true⟩ : LockRecord))] "f" (⟨"b", 31, 30, true⟩ : LockRecord)) "f" =
        some ⟨"b", 31, 30, true⟩) :=
  ⟨by decide, by decide,
    acquire_expired_succeeds [("f", (⟨"a", 0, 30, true⟩ : LockRecord))] "f" (⟨"a", 0, 30, true⟩ : LockRecord)
      "b" true 30 31 (by decide) (by decide)⟩

/-- C10: while its own record is live, the owner's re-acquire succeeds
unconditionally — whatever mode is held and whatever mode is requested —
and replaces the record's timestamp with the current time and its
exclusive flag with the newly requested mode. -/
theorem acquire_same_owner_renews (store : LockStore) (path : String)
    (r : LockRecord) (owner : String) (exclusive : Bool) (timeout now : Nat)
    (hr : alookup store path = some r) (hlive : r.live now)
    (howner : r.owner = owner) :
    acquire store path owner exclusive timeout now =
      .ok (aset store path ⟨owner, now, timeout, exclusive⟩) ∧
    alookup (aset store path ⟨owner, now, timeout, exclusive⟩) path =
      some ⟨owner, now, timeout, exclusive⟩ := by
  refine ⟨?_, alookup_aset_self _ _ _⟩
  unfold acquire
  rw [hr]
  simp [LockRecord.live] at hlive
  simp [hlive, howner]

/-- Witness for C10: owner "a" holds a live exclusive record and
re-acquires exclusively; the call succeeds and the record is renewed. -/
theorem acquire_same_owner_renews_witness :
    alookup [("f", (⟨"a", 0, 100, true⟩ : LockRecord))] "f" = some ⟨"a", 0, 100, true⟩ ∧
    (⟨"a", 0, 100, true⟩ : LockRecord).live 50 ∧
    (⟨"a", 0, 100, true⟩ : LockRecord).owner = "a" ∧
    (acquire [("f", (⟨"a", 0, 100, true⟩ : LockRecord))] "f" "a" true 100 50 =
        .ok (aset [("f", (⟨"a", 0, 100, true⟩ : LockRecord))] "f" (⟨"a", 50, 100, true⟩ : LockRecord)) ∧
      alookup (aset [("f", (⟨"a", 0, 100, true⟩ : LockRecord))] "f" (⟨"a", 50, 100, true⟩ : LockRecord)) "f" =
        some ⟨"a", 50, 100, true⟩) :=
  ⟨by decide, by decide, by decide,
    acquire_same_owner_renews [("f", (⟨"a", 0, 100, true⟩ : LockRecord))] "f" (⟨"a", 0, 100, true⟩ : LockRecord)
      "a" true 100 50 (by decide) (by decide) (by decide)⟩

/-- C2 counterexample: owners "a" then "b" both successfully acquire a
shared lock on "f" inside the live window, but the store then holds only
owner "b"'s record — the second shared acquire overwrote the first — and
owner "a"'s subsequent release returns `false` rather than succeeding. -/
theorem shared_shared_overwrites_counterexample :
    acquire [] "f" "a" false 100 0 = .ok [("f", ⟨"a", 0, 100, false⟩)] ∧
    acquire [("f", ⟨"a", 0, 100, false⟩)] "f" "b" false 100 1 =
      .ok [("f", ⟨"b", 1, 100, false⟩)] ∧
    alookup [("f", (⟨"b", 1, 100, false⟩ : LockRecord))] "a" = none ∧
    release [("f", ⟨"b", 1, 100, false⟩)] "f" "a" true =
      (false, [("f", ⟨"b", 1, 100, false⟩)]) :=
  ⟨rfl, rfl, rfl, rfl⟩

/-- C2 amended: two distinct owners can indeed both successfully acquire
shared locks on the same live resource, but the store keeps at most one
record per resource: the second acquire overwrites the first owner's
record.  Afterwards the second owner's release succeeds and removes the
record, while the first owner's release (while the second's record is
present) returns `false`. -/
theorem shared_shared_acquires_single_record (store : LockStore)
    (path o1 o2 : String) (t1 d1 t2 d2 : Nat)
    (h0 : alookup store path = none) (ho : o1 ≠ o2) (hlive : t2 < t1 + d1) :
    ∃ s1 s2,
      acquire store path o1 false d1 t1 = .ok s1 ∧
      acquire s1 path o2 false d2 t2 = .ok s2 ∧
      alookup s2 path = some ⟨o2, t2, d2, false⟩ ∧
      (release s2 path o1 true).1 = false ∧
      release s2 path o2 true = (true, aerase s2 path) := by
  refine ⟨aset store path ⟨o1, t1, d1, false⟩,
    aset (aset store path ⟨o1, t1, d1, false⟩) path ⟨o2, t2, d2, false⟩,
    ?_, ?_, alookup_aset_self _ _ _, ?_, ?_⟩
  · unfold acquire
    rw [h0]
  · unfold acquire
    rw [alookup_aset_self]
    simp [hlive, ho]
  · unfold release
    rw [alookup_aset_self]
    simp [Ne.symm ho]
  · unfold release
    rw [alookup_aset_self]
    simp

/-- Witness for the amended C2 theorem at a concrete input. -/
theorem shared_shared_acquires_single_record_witness :
    alookup ([] : LockStore) "f" = none ∧ "a" ≠ "b" ∧ (1 : Nat) < 0 + 100 ∧
    ∃ s1 s2,
      acquire [] "f" "a" false 100 0 = .ok s1 ∧
      acquire s1 "f" "b" false 100 1 = .ok s2 ∧
      alookup s2 "f" = some ⟨"b", 1, 100, false⟩ ∧
      (release s2 "f" "a" true).1 = false ∧
      release s2 "f" "b" true = (true, aerase s2 "f") :=
  ⟨rfl, by decide, by decide,
    shared_shared_acquires_single_record [] "f" "a" "b" 0 100 1 100
      rfl (by decide) (by decide)⟩

/-! ### Lemmas about sorting, enumeration and the scheduler -/

theorem insertSorted_perm {α : Type} (le : α → α → Bool) (a : α) (l : List α) :
    List.Perm (insertSorted le a l) (a :: l) := by
  induction l with
  | nil => exact List.Perm.refl _
  | cons b bs ih =>
    unfold insertSorted
    by_cases h : le a b
    · rw [if_pos h]
    · rw [if_neg h]
      exact (ih.cons b).trans (List.Perm.swap a b bs)

theorem sortTasks_perm {α : Type} (le : α → α → Bool) (l : List α) :
    List.Perm (sortTasks le l) l := by
  induction l with
  | nil => exact List.Perm.refl _
  | cons a as ih =>
    exact (insertSorted_perm le a (sortTasks le as)).trans (ih.cons a)

theorem withIdx_map_snd_comp {α β : Type} (f : α → β) (i : Nat) (l : List α) :
    (withIdx i l).map (fun p => f p.2) = l.map f := by
  induction l generalizing i with
  | nil => rfl
  | cons a as ih => simp [withIdx, ih]

theorem mem_withIdx_of_mem {α : Type} {a : α} {l : List α} (h : a ∈ l) (i : Nat) :
    ∃ k, (k, a) ∈ withIdx i l := by
  induction l generalizing i with
  | nil => cases h
  | cons b bs ih =>
    rcases List.mem_cons.mp h with rfl | h
    · exact ⟨i, List.mem_cons_self _ _⟩
    · obtain ⟨k, hk⟩ := ih h (i + 1)
      exact ⟨k, List.mem_cons_of_mem _ hk⟩

theorem sum_map_add {α : Type} (l : List α) (f g : α → Nat) :
    (l.map (fun a => f a + g a)).sum = (l.map f).sum + (l.map g).sum := by
  induction l with
  | nil => rfl
  | cons a as ih => simp [ih]; omega

theorem sum_map_range_ite (c : Nat) :
    ∀ n k : Nat, k < n →
      ((List.range n).map (fun j => if k = j then c else 0)).sum = c := by
  intro n
  induction n with
  | zero => intro k hk; exact absurd hk (Nat.not_lt_zero k)
  | succ n ih =>
    intro k hk
    rw [List.range_succ, List.map_append, List.sum_append]
    rcases Nat.lt_succ_iff_lt_or_eq.mp hk with h | h
    · rw [ih k h]
      simp [Nat.ne_of_lt h]
    · subst h
      have hz : ((List.range k).map (fun j => if k = j then c else 0)).sum = 0 := by
        apply List.sum_eq_zero
        intro x hx
        obtain ⟨j, hj, rfl⟩ := List.mem_map.mp hx
        simp [Nat.ne_of_gt (List.mem_range.mp hj)]
      simp [hz]

/-- Summing per-worker occurrence counts over the worker indices
reconstitutes the occurrence count over the whole enumerated list: the
round-robin index `i % n` routes each position to exactly one worker. -/
theorem sum_count_queues {α β : Type} [BEq β] [LawfulBEq β] (f : α → β)
    (n : Nat) (hn : 0 < n) (x : β) :
    ∀ pairs : List (Nat × α),
      ((List.range n).map (fun j =>
        ((pairs.filter (fun p => decide (p.1 % n = j))).map (fun p => f p.2)).count x)).sum
      = (pairs.map (fun p => f p.2)).count x := by
  intro pairs
  induction pairs with
  | nil =>
    simp
  | cons p ps ih =>
    have hstep : ∀ j,
        (((p :: ps).filter (fun q => decide (q.1 % n = j))).map (fun q => f q.2)).count x
          = (if p.1 % n = j then (if f p.2 == x then 1 else 0) else 0)
            + ((ps.filter (fun q => decide (q.1 % n = j))).map (fun q => f q.2)).count x := by
      intro j
      by_cases hpj : p.1 % n = j
      · cases hfx : f p.2 == x <;>
          (simp [List.filter_cons, hpj, List.count_cons, hfx]; try omega)
      · simp [List.filter_cons, hpj]
    calc ((List.range n).map (fun j =>
            (((p :: ps).filter (fun q => decide (q.1 % n = j))).map (fun q => f q.2)).count x)).sum
        = ((List.range n).map (fun j =>
            (if p.1 % n = j then (if f p.2 == x then 1 else 0) else 0)
              + ((ps.filter (fun q => decide (q.1 % n = j))).map (fun q => f q.2)).count x)).sum := by
          simp only [hstep]
      _ = ((List.range n).map (fun j =>
            if p.1 % n = j then (if f p.2 == x then 1 else 0) else 0)).sum
          + ((List.range n).map (fun j =>
            ((ps.filter (fun q => decide (q.1 % n = j))).map (fun q => f q.2)).count x)).sum :=
          sum_map_add _ _ _
      _ = (if f p.2 == x then 1 else 0) + (ps.map (fun q => f q.2)).count x := by
          rw [sum_map_range_ite _ n (p.1 % n) (Nat.mod_lt _ hn), ih]
      _ = ((p :: ps).map (fun q => f q.2)).count x := by
          rw [List.map_cons, List.count_cons]
          omega

/-- A task rejected by the availability filter stays rejected when the
assigned map only gains keys and the completed map is unchanged. -/
theorem isAvailable_false_mono (assigned assigned' : List (Option String × String))
    (completed : List (String × String)) (t : Task)
    (hmono : ∀ k, (alookup assigned k).isSome → (alookup assigned' k).isSome)
    (hf : isAvailable assigned completed t = false) :
    isAvailable assigned' completed t = false := by
  cases hs' : (alookup assigned' t.id).isSome with
  | true => simp [isAvailable, hs']
  | false =>
    have hs : (alookup assigned t.id).isSome = false := by
      cases hs : (alookup assigned t.id).isSome
      · rfl
      · have := hmono t.id (by rw [hs])
        rw [hs'] at this
        cases this
    by_cases hst : t.status.getD "Not Started" = "Completed"
    · simp [isAvailable, hst]
    · simp [isAvailable, hs, hs', hst] at hf ⊢
      exact hf

end FalconAgent

namespace FalconAgent

/-- C3 evidence: at a state with one High-priority and one Low-priority
ready task (no dependencies, one worker), `assign_tasks` hands out the
Low-priority task before the High-priority one — the sort at line 404
orders ascending priority rank, so Low (rank 1) precedes High (rank 3). -/
theorem assignTasks_assigns_low_before_high :
    (assignTasks
        ⟨[⟨some "H", none, some "High", none, some [], some "Not Started", none⟩,
          ⟨some "L", none, some "Low", none, some [], some "Not Started", none⟩],
         [], []⟩
        ["w1"]).map Prod.fst = some [[some "L", some "H"]] := rfl

/-- C6 counterexample: a task with status "Needs Fixes" (neither
InProgress nor Completed) and no dependencies satisfies the spec's
ready-set predicate, yet the ready-set computation excludes it because
its id is still a key of `tasks_assigned`; so selection is not
equivalent to the spec's status-based condition. -/
theorem readySet_spec_mismatch_counterexample :
    specReadyTask [] ⟨some "A", none, none, none, some [], some "Needs Fixes", none⟩ = true ∧
    availableTasks ⟨[⟨some "A", none, none, none, some [], some "Needs Fixes", none⟩],
        [(some "A", "w1")], []⟩ = [] ∧
    ¬ ((⟨some "A", none, none, none, some [], some "Needs Fixes", none⟩ : Task) ∈
        availableTasks ⟨[⟨some "A", none, none, none, some [], some "Needs Fixes", none⟩],
          [(some "A", "w1")], []⟩ ↔
       specReadyTask [] ⟨some "A", none, none, none, some [], some "Needs Fixes", none⟩ = true) := by
  refine ⟨rfl, rfl, ?_⟩
  decide

/-- C6 amended: a task is selected by the ready-set computation iff it is
in the graph, its id is not a key of `tasks_assigned`, its status is not
"Completed", and every dependency id maps to "Completed" in
`tasks_completed` (an empty dependency list qualifying trivially); in
particular no selected task has a dependency outside the completed set. -/
theorem mem_availableTasks_iff (s : SchedulerState) (t : Task) :
    t ∈ availableTasks s ↔
      t ∈ s.tasks ∧ alookup s.tasksAssigned t.id = none ∧
        t.status.getD "Not Started" ≠ "Completed" ∧
        ∀ d ∈ t.dependencies.getD [], alookup s.tasksCompleted d = some "Completed" := by
  unfold availableTasks
  rw [List.mem_filter]
  constructor
  · rintro ⟨hmem, hav⟩
    by_cases h1 : (alookup s.tasksAssigned t.id).isSome
    · simp [isAvailable, h1] at hav
    · by_cases h2 : t.status.getD "Not Started" = "Completed"
      · simp [isAvailable, h2] at hav
      · simp only [isAvailable, h1, h2] at hav
        simp only [Bool.false_or, if_false, List.all_eq_true,
          decide_eq_true_eq] at hav
        refine ⟨hmem, Option.not_isSome_iff_eq_none.mp (by simpa using h1), h2,
          fun d hd => hav d hd⟩
  · rintro ⟨hmem, h1, h2, h3⟩
    refine ⟨hmem, ?_⟩
    simp only [isAvailable, h1, Option.isSome_none, Bool.false_or]
    rw [if_neg (by simpa using h2)]
    rw [List.all_eq_true]
    intro d hd
    exact decide_eq_true (h3 d hd)

/-! ### The two-call behaviour of `assign_tasks` -/

theorem assignTasksGo_fst (s : SchedulerState) (agents : List String) :
    (assignTasksGo s agents).1 =
      (List.range agents.length).map
        (workerQueue (sortTasks taskLE (availableTasks s)) agents.length) := rfl

theorem assignTasksGo_tasksAssigned (s : SchedulerState) (agents : List String) :
    (assignTasksGo s agents).2.tasksAssigned = newTasksAssigned s agents := rfl

theorem assignTasksGo_tasksCompleted (s : SchedulerState) (agents : List String) :
    (assignTasksGo s agents).2.tasksCompleted = s.tasksCompleted := rfl

theorem assignTasksGo_tasks (s : SchedulerState) (agents : List String) :
    (assignTasksGo s agents).2.tasks =
      s.tasks.map (fun t =>
        if isAvailable s.tasksAssigned s.tasksCompleted t then
          { t with status := some "In Progress",
                   owner := alookup (newTasksAssigned s agents) t.id }
        else t) := rfl

/-- A key already present in `tasks_assigned` is still present after the
round-robin loop. -/
theorem isSome_newTasksAssigned_mono (s : SchedulerState) (agents : List String)
    (k : Option String) (h : (alookup s.tasksAssigned k).isSome = true) :
    (alookup (newTasksAssigned s agents) k).isSome = true :=
  isSome_alookup_foldl_aset _ _ _ _ _ h

/-- Every sorted ready task's id is a key of `tasks_assigned` after the
round-robin loop. -/
theorem isSome_newTasksAssigned_of_mem (s : SchedulerState) (agents : List String)
    (t : Task) (ht : t ∈ sortTasks taskLE (availableTasks s)) :
    (alookup (newTasksAssigned s agents) t.id).isSome = true := by
  obtain ⟨k, hk⟩ := mem_withIdx_of_mem ht 0
  exact isSome_alookup_foldl_aset_of_mem
    (withIdx 0 (sortTasks taskLE (availableTasks s)))
    (fun p => p.2.id) (fun p => agents.getD (p.1 % agents.length) "")
    s.tasksAssigned (k, t) hk

/-- A duplicate-free list counts every element at most once. -/
theorem nodup_count_le_one {α : Type} [BEq α] [LawfulBEq α] {l : List α}
    (h : l.Nodup) (x : α) : l.count x ≤ 1 := by
  induction l with
  | nil => simp
  | cons a as ih =>
    rcases List.nodup_cons.mp h with ⟨ha, has⟩
    rw [List.count_cons]
    by_cases hax : (a == x) = true
    · have hx : a = x := eq_of_beq hax
      subst hx
      rw [List.count_eq_zero.mpr ha]
      simp
    · simp only [hax, if_false]
      simpa using ih has

/-- A present key makes the availability filter reject the task. -/
theorem isAvailable_eq_false_of_isSome (assigned : List (Option String × String))
    (completed : List (String × String)) (t : Task)
    (h : (alookup assigned t.id).isSome = true) :
    isAvailable assigned completed t = false := by
  simp [isAvailable, h]

/-- After one pass of assignment every task is rejected by the
availability filter: a task that was ready got its id recorded in
`tasks_assigned`, and a task that was not ready is still rejected since
`tasks_assigned` only gained keys and `tasks_completed` is unchanged. -/
theorem availableTasks_assignTasksGo (s : SchedulerState) (agents : List String) :
    availableTasks (assignTasksGo s agents).2 = [] := by
  unfold availableTasks
  rw [List.filter_eq_nil_iff]
  intro t' ht'
  rw [assignTasksGo_tasks] at ht'
  rw [assignTasksGo_tasksAssigned, assignTasksGo_tasksCompleted]
  obtain ⟨t, ht, rfl⟩ := List.mem_map.mp ht'
  by_cases hav : isAvailable s.tasksAssigned s.tasksCompleted t = true
  · rw [if_pos hav]
    have hmemAvail : t ∈ availableTasks s := List.mem_filter.mpr ⟨ht, hav⟩
    have hmemSorted : t ∈ sortTasks taskLE (availableTasks s) :=
      (sortTasks_perm taskLE (availableTasks s)).mem_iff.mpr hmemAvail
    have hsome := isSome_newTasksAssigned_of_mem s agents t hmemSorted
    intro hcon
    rw [isAvailable_eq_false_of_isSome (newTasksAssigned s agents) s.tasksCompleted
      ({ t with status := some "In Progress",
                owner := alookup (newTasksAssigned s agents) t.id }) hsome] at hcon
    cases hcon
  · rw [if_neg hav]
    have hfalse :=
      isAvailable_false_mono s.tasksAssigned (newTasksAssigned s agents)
        s.tasksCompleted t
        (fun k hk => isSome_newTasksAssigned_mono s agents k hk)
        (by simpa using hav)
    simp [hfalse]

/-- The second call distributes nothing: every worker queue is empty. -/
theorem assignTasksGo_twice_fst (s : SchedulerState) (agents : List String) :
    (assignTasksGo (assignTasksGo s agents).2 agents).1 =
      (List.range agents.length).map (fun _ => []) := by
  rw [assignTasksGo_fst, availableTasks_assignTasksGo]
  rfl

end FalconAgent

namespace FalconAgent

/-- C7: `assign` is idempotent — with a duplicate-free id set, running
`assign_tasks` twice with no intervening state change hands out nothing
in the second call (so no task already In Progress or Completed is
re-assigned), and across both calls every task id appears in at most one
worker's queue, at most once. -/
theorem assignTasks_idempotent (s : SchedulerState) (agents : List String)
    (a1 a2 : List (List (Option String))) (s1 s2 : SchedulerState)
    (hnd : (s.tasks.map Task.id).Nodup)
    (h1 : assignTasks s agents = some (a1, s1))
    (h2 : assignTasks s1 agents = some (a2, s2)) :
    (∀ l ∈ a2, l = []) ∧
    ∀ x : Option String, ((a1 ++ a2).map (fun l => l.count x)).sum ≤ 1 := by
  cases agents with
  | nil => simp [assignTasks] at h1
  | cons a0 rest =>
    rw [show assignTasks s (a0 :: rest) = some (assignTasksGo s (a0 :: rest)) from rfl,
      Option.some.injEq] at h1
    have ha1 : (assignTasksGo s (a0 :: rest)).1 = a1 := by rw [h1]
    have hs1 : (assignTasksGo s (a0 :: rest)).2 = s1 := by rw [h1]
    rw [← hs1] at h2
    rw [show assignTasks (assignTasksGo s (a0 :: rest)).2 (a0 :: rest) =
          some (assignTasksGo (assignTasksGo s (a0 :: rest)).2 (a0 :: rest)) from rfl,
      Option.some.injEq] at h2
    have ha2 : (assignTasksGo (assignTasksGo s (a0 :: rest)).2 (a0 :: rest)).1 = a2 := by
      rw [h2]
    have hA2 : ∀ l ∈ a2, l = [] := by
      intro l hl
      rw [← ha2, assignTasksGo_twice_fst] at hl
      obtain ⟨j, -, rfl⟩ := List.mem_map.mp hl
      rfl
    refine ⟨hA2, ?_⟩
    intro x
    rw [List.map_append, List.sum_append]
    have hz : (a2.map (fun l => l.count x)).sum = 0 := by
      apply List.sum_eq_zero
      intro y hy
      obtain ⟨l, hl, rfl⟩ := List.mem_map.mp hy
      rw [hA2 l hl]
      rfl
    rw [hz, Nat.add_zero, ← ha1, assignTasksGo_fst, List.map_map]
    have hq := sum_count_queues Task.id (a0 :: rest).length (by simp) x
      (withIdx 0 (sortTasks taskLE (availableTasks s)))
    rw [withIdx_map_snd_comp] at hq
    have halign :
        ((List.range (a0 :: rest).length).map
          ((fun l => l.count x) ∘
            workerQueue (sortTasks taskLE (availableTasks s)) (a0 :: rest).length)).sum
        = ((sortTasks taskLE (availableTasks s)).map Task.id).count x := by
      simpa [Function.comp, workerQueue] using hq
    rw [halign]
    have hsub : List.Sublist ((availableTasks s).map Task.id) (s.tasks.map Task.id) :=
      (List.filter_sublist _).map _
    have h1n : ((availableTasks s).map Task.id).Nodup := hnd.sublist hsub
    have hperm :
        List.Perm ((availableTasks s).map Task.id)
          ((sortTasks taskLE (availableTasks s)).map Task.id) :=
      ((sortTasks_perm taskLE (availableTasks s)).map Task.id).symm
    exact nodup_count_le_one (hperm.nodup h1n) x

/-- Witness for C7: one ready task, one worker; the first call assigns it,
the second call assigns nothing and the id is counted once overall. -/
theorem assignTasks_idempotent_witness :
    (([⟨some "A", none, none, none, some [], none, none⟩].map Task.id).Nodup) ∧
    assignTasks ⟨[⟨some "A", none, none, none, some [], none, none⟩], [], []⟩ ["w1"] =
      some ([[some "A"]],
        ⟨[⟨some "A", none, none, none, some [], some "In Progress", some "w1"⟩],
         [(some "A", "w1")], []⟩) ∧
    assignTasks
        ⟨[⟨some "A", none, none, none, some [], some "In Progress", some "w1"⟩],
         [(some "A", "w1")], []⟩ ["w1"] =
      some ([[]],
        ⟨[⟨some "A", none, none, none, some [], some "In Progress", some "w1"⟩],
         [(some "A", "w1")], []⟩) ∧
    ((∀ l ∈ [([] : List (Option String))], l = []) ∧
      ∀ x : Option String,
        ((([[some "A"]] : List (List (Option String))) ++ [[]]).map
          (fun l : List (Option String) => l.count x)).sum ≤ 1) :=
  ⟨by decide, rfl, rfl,
    assignTasks_idempotent
      ⟨[⟨some "A", none, none, none, some [], none, none⟩], [], []⟩ ["w1"]
      [[some "A"]] [[]]
      ⟨[⟨some "A", none, none, none, some [], some "In Progress", some "w1"⟩],
       [(some "A", "w1")], []⟩
      ⟨[⟨some "A", none, none, none, some [], some "In Progress", some "w1"⟩],
       [(some "A", "w1")], []⟩
      (by decide) rfl rfl⟩

end FalconAgent

namespace FalconAgent

/-- C4 counterexample: after a first implementation pass (no fix has run)
the recorded status is "Needs Review", and `verify_fixes` proceeds to a
successful verification instead of aborting — the guard at line 611 only
inspects the recorded status and cannot see whether it came from
`implement_task` or `fix_task`. -/
theorem verify_after_first_implementation_proceeds :
    implementTaskStatus [] "T1" = [("T1", "Needs Review")] ∧
    verifyFixes (implementTaskStatus [] "T1") "T1" true =
      .ok [("T1", "Completed")] :=
  ⟨rfl, rfl⟩

/-- C4 amended: `verify_fixes` aborts with a `ValueError` exactly when
the task's recorded status is not "Needs Review"; a "Needs Review" set by
the first implementation pass satisfies the guard just as one set by a
fix does, so the fix-provenance restriction is not enforced. -/
theorem verifyFixes_error_iff (completed : List (String × String))
    (taskId : String) (allFixed : Bool) :
    (∃ e, verifyFixes completed taskId allFixed = .error e) ↔
      alookup completed taskId ≠ some "Needs Review" := by
  unfold verifyFixes
  by_cases h : alookup completed taskId ≠ some "Needs Review"
  · simp [h]
  · simp [h]

end FalconAgent

namespace FalconAgent

/-- C8 counterexample: a graph whose single task has no attributes
round-trips through persist and load unchanged, which differs from its
normalized form — `_save_goal_graph` writes the graph as given and never
normalizes. -/
theorem save_load_not_normalized_counterexample :
    loadGoalGraph
        (saveGoalGraph [] [] "o" 100 0 "goal_graph_0.json"
          ⟨[⟨none, none, none, none, none, none, none⟩]⟩).1
        (saveGoalGraph [] [] "o" 100 0 "goal_graph_0.json"
          ⟨[⟨none, none, none, none, none, none, none⟩]⟩).2
        "o2" 100 1 "latest.json" =
      .ok (⟨[⟨none, none, none, none, none, none, none⟩]⟩, []) ∧
    validateGoalGraph ⟨[⟨none, none, none, none, none, none, none⟩]⟩ ≠
      (⟨[⟨none, none, none, none, none, none, none⟩]⟩ : GoalGraph) :=
  ⟨rfl, by decide⟩

/-- C8 amended: with an uncontended lock store, persist followed by load
of "latest" returns the input graph exactly as given; this equals the
normalized input precisely when the input is already normalized — the
graph-creation flow normalizes before persisting, but persist itself does
not. -/
theorem save_then_load_roundtrip (fs : FileStore) (o1 o2 tsName : String)
    (d1 n1 d2 n2 : Nat) (g : GoalGraph) :
    loadGoalGraph (saveGoalGraph [] fs o1 d1 n1 tsName g).1
        (saveGoalGraph [] fs o1 d1 n1 tsName g).2 o2 d2 n2 "latest.json" =
      .ok (g, []) ∧
    (validateGoalGraph g = g →
      loadGoalGraph (saveGoalGraph [] fs o1 d1 n1 tsName g).1
          (saveGoalGraph [] fs o1 d1 n1 tsName g).2 o2 d2 n2 "latest.json" =
        .ok (validateGoalGraph g, [])) := by
  have hsave : saveGoalGraph [] fs o1 d1 n1 tsName g =
      ([], aset (aset fs tsName (.graph g)) "latest.json" (.graph g)) := by
    simp [saveGoalGraph, acquire, release, aerase, alookup]
  have hlook :
      alookup (aset (aset fs tsName (.graph g)) "latest.json" (.graph g))
        "latest.json" = some (.graph g) := alookup_aset_self _ _ _
  have hmain : loadGoalGraph (saveGoalGraph [] fs o1 d1 n1 tsName g).1
      (saveGoalGraph [] fs o1 d1 n1 tsName g).2 o2 d2 n2 "latest.json" =
      .ok (g, []) := by
    rw [hsave]
    simp [loadGoalGraph, hlook, acquire, release, aerase, alookup]
  exact ⟨hmain, fun h => by rw [h]; exact hmain⟩

/-- Witness for C8's amended theorem at a concrete input: an
already-normalized one-task graph. -/
theorem save_then_load_roundtrip_witness :
    loadGoalGraph
        (saveGoalGraph [] []
          "o" 30 0 "goal_graph_0.json"
          ⟨[⟨some "1", some "Task 1", some "Medium", some "d", some [],
             some "Not Started", some "Unassigned"⟩]⟩).1
        (saveGoalGraph [] []
          "o" 30 0 "goal_graph_0.json"
          ⟨[⟨some "1", some "Task 1", some "Medium", some "d", some [],
             some "Not Started", some "Unassigned"⟩]⟩).2
        "o2" 30 1 "latest.json" =
      .ok (⟨[⟨some "1", some "Task 1", some "Medium", some "d", some [],
             some "Not Started", some "Unassigned"⟩]⟩, []) ∧
    (validateGoalGraph
        ⟨[⟨some "1", some "Task 1", some "Medium", some "d", some [],
           some "Not Started", some "Unassigned"⟩]⟩ =
        ⟨[⟨some "1", some "Task 1", some "Medium", some "d", some [],
           some "Not Started", some "Unassigned"⟩]⟩ →
      loadGoalGraph
          (saveGoalGraph [] []
            "o" 30 0 "goal_graph_0.json"
            ⟨[⟨some "1", some "Task 1", some "Medium", some "d", some [],
               some "Not Started", some "Unassigned"⟩]⟩).1
          (saveGoalGraph [] []
            "o" 30 0 "goal_graph_0.json"
            ⟨[⟨some "1", some "Task 1", some "Medium", some "d", some [],
               some "Not Started", some "Unassigned"⟩]⟩).2
          "o2" 30 1 "latest.json" =
        .ok (validateGoalGraph
          ⟨[⟨some "1", some "Task 1", some "Medium", some "d", some [],
             some "Not Started", some "Unassigned"⟩]⟩, [])) :=
  save_then_load_roundtrip [] "o" "o2" "goal_graph_0.json" 30 0 30 1
    ⟨[⟨some "1", some "Task 1", some "Medium", some "d", some [],
       some "Not Started", some "Unassigned"⟩]⟩

end FalconAgent

namespace FalconAgent

/-- C9 counterexample: with a live foreign exclusive record on the
snapshot file, `load_goal_graph` propagates `FileLockException` to the
caller — the handler at line 424 only catches `json.JSONDecodeError` and
`IOError`. -/
theorem load_locked_raises_counterexample :
    loadGoalGraph [("latest.json", ⟨"other", 0, 100, true⟩)]
        [("latest.json", .corrupt)] "me" 100 1 "latest.json" =
      .error (.contention "latest.json" "other" 100) := rfl

/-- C9 amended: load returns the empty graph on a missing file (before
any locking) and on corrupt content when the shared lock is granted; but
it raises — returns an error — exactly when the file exists and a live
record owned by someone else is exclusive, so load is not
exception-free. -/
theorem loadGoalGraph_spec (ls : LockStore) (fs : FileStore) (owner : String)
    (timeout now : Nat) (filename : String) :
    (alookup fs filename = none →
      loadGoalGraph ls fs owner timeout now filename = .ok (⟨[]⟩, ls)) ∧
    ((∃ e, loadGoalGraph ls fs owner timeout now filename = .error e) ↔
      (alookup fs filename).isSome = true ∧
        ∃ r, alookup ls filename = some r ∧ r.live now ∧ r.owner ≠ owner ∧
          r.exclusive = true) ∧
    (∀ ls1, alookup fs filename = some .corrupt →
      acquire ls filename owner false timeout now = .ok ls1 →
      loadGoalGraph ls fs owner timeout now filename =
        .ok (⟨[]⟩, (release ls1 filename owner true).2)) := by
  have hchar := acquire_error_characterization ls filename owner false timeout now
  refine ⟨?_, ?_, ?_⟩
  · intro h
    unfold loadGoalGraph
    rw [h]
  · unfold loadGoalGraph
    cases hf : alookup fs filename with
    | none => simp [hf]
    | some c =>
      cases hacq : acquire ls filename owner false timeout now with
      | error e =>
        constructor
        · intro _
          refine ⟨by simp [hf], ?_⟩
          obtain ⟨r, hr, hl, ho, hx⟩ := hchar.mp ⟨e, hacq⟩
          refine ⟨r, hr, hl, ho, ?_⟩
          rcases hx with h | h
          · cases h
          · exact h
        · intro _
          exact ⟨e, rfl⟩
      | ok ls1 =>
        constructor
        · intro hex
          obtain ⟨e, he⟩ := hex
          cases c <;> cases he
        · rintro ⟨-, r, hr, hl, ho, hx⟩
          obtain ⟨e, he⟩ := hchar.mpr ⟨r, hr, hl, ho, .inr hx⟩
          rw [hacq] at he
          cases he
  · intro ls1 hf hacq
    unfold loadGoalGraph
    rw [hf, hacq]

/-- Witness for C9's amended theorem at a concrete input: an uncontended
store with a corrupt latest snapshot. -/
theorem loadGoalGraph_spec_witness :
    (alookup ([("latest.json", FileContent.corrupt)] : FileStore) "missing.json" = none →
      loadGoalGraph [] [("latest.json", .corrupt)] "o" 30 1 "missing.json" =
        .ok (⟨[]⟩, [])) ∧
    ((∃ e, loadGoalGraph [] [("latest.json", .corrupt)] "o" 30 1 "missing.json" = .error e) ↔
      (alookup ([("latest.json", FileContent.corrupt)] : FileStore) "missing.json").isSome = true ∧
        ∃ r, alookup ([] : LockStore) "missing.json" = some r ∧ r.live 1 ∧ r.owner ≠ "o" ∧
          r.exclusive = true) ∧
    (∀ ls1, alookup ([("latest.json", FileContent.corrupt)] : FileStore) "missing.json" =
        some .corrupt →
      acquire [] "missing.json" "o" false 30 1 = .ok ls1 →
      loadGoalGraph [] [("latest.json", .corrupt)] "o" 30 1 "missing.json" =
        .ok (⟨[]⟩, (release ls1 "missing.json" "o" true).2)) :=
  loadGoalGraph_spec [] [("latest.json", .corrupt)] "o" 30 1 "missing.json"

end FalconAgent
